import Mathlib

/-!
Verification of the confidence-estimation engine in src/mokapot/confidence.py.

The module works on pandas DataFrames.  A DataFrame is embedded as a list of
column names together with a list of rows; a row is its integer index label
paired with its cells, one cell per column.  Cells in this module hold numeric
data (metadata keys, scores, ternary target labels, q-values, PEPs); a cell is
embedded as the rational number num / (den + 1), kept as an unreduced pair so
that every operation evaluates by plain kernel reduction.  Plain integers are
embedded with den = 0.

The randomised shuffle performed by df.sample(frac=1) inside _groupby_max is
embedded by passing the shuffled row list explicitly; theorems quantify over
every permutation of the input rows.  pandas sort_values over several columns
is a stable lexicographic sort (numpy lexsort), embedded with List.mergeSort
over a lexicographic comparator.  The external PEP primitive
(triqler qvality.getQvaluesFromScores) and the cross-link q-value primitive
are consumed as black boxes and appear as function parameters constrained only
by their documented contracts.
-/

namespace Mokapot

/-- One cell of a DataFrame: the rational number num / (den + 1). -/
structure Cell where
  num : Int
  den : Nat
deriving DecidableEq, Repr

/-- The rational value a cell denotes. -/
def Cell.val (c : Cell) : ℚ := (c.num : ℚ) / ((c.den : ℚ) + 1)

/-- Embedding of a plain integer cell. -/
def Cell.ofInt (n : Int) : Cell := ⟨n, 0⟩

/-- Numeric comparison of cells, by cross multiplication (denominators are
positive, so this is comparison of the denoted rationals). -/
def Cell.le (a b : Cell) : Bool :=
  decide (a.num * ((b.den : Int) + 1) ≤ b.num * ((a.den : Int) + 1))

/-- Strict numeric comparison of cells. -/
def Cell.lt (a b : Cell) : Bool :=
  decide (a.num * ((b.den : Int) + 1) < b.num * ((a.den : Int) + 1))

/-- Lexicographic comparison of cell lists, the order pandas sort_values uses
over a list of columns. -/
def lexLe : List Cell → List Cell → Bool
  | [], _ => true
  | _ :: _, [] => false
  | a :: as, b :: bs => if Cell.lt a b then true else if Cell.lt b a then false else lexLe as bs

/-- Last-occurrence deduplication: the rows pandas drop_duplicates with
keep equal to last retains, in their original relative order.  A row survives
exactly when no later row has the same key. -/
def keepLast {α κ : Type} [DecidableEq κ] (key : α → κ) : List α → List α
  | [] => []
  | a :: rest =>
    if rest.any (fun b => key b == key a) then keepLast key rest
    else a :: keepLast key rest

/-- Insertion of an element into a sorted list, before the first element it
compares at or below: equal elements keep the already-present one later, so
the sort below is stable. -/
def insertSorted {α : Type} (le : α → α → Bool) (a : α) : List α → List α
  | [] => [a]
  | b :: bs => if le a b then a :: b :: bs else b :: insertSorted le a bs

/-- A stable sort, the embedding of pandas sort_values (numpy lexsort is a
stable sort; only sortedness and the permutation property matter to the
theorems below, and both are proved here by kernel-reducible recursion). -/
def sortStable {α : Type} (le : α → α → Bool) : List α → List α
  | [] => []
  | a :: as => insertSorted le a (sortStable le as)

/-- A row of a DataFrame: its pandas index label paired with its cells. -/
abbrev RowT := Nat × List Cell

/-- Shallow embedding of a pandas DataFrame: column names and rows. -/
structure DataFrame where
  cols : List String
  rows : List RowT
deriving DecidableEq, Repr

/-- Lookup in a list of labelled cells: the first cell under label c. -/
def lookupCell (ps : List (String × Cell)) (c : String) : Cell :=
  match ps.find? (fun p => p.1 == c) with
  | some p => p.2
  | none => Cell.ofInt 0

/-- Label-based cell access: the cell under the first column named c. -/
def getCell (cols : List String) (c : String) (cells : List Cell) : Cell :=
  lookupCell (cols.zip cells) c

/-- Column access, df.loc[:, c].values. -/
def getCol (df : DataFrame) (c : String) : List Cell :=
  df.rows.map (fun r => getCell df.cols c r.2)

/-- Projection of one row to an ordered list of columns (a composite key). -/
def rowKey (cols byCols : List String) (r : RowT) : List Cell :=
  byCols.map (fun c => getCell cols c r.2)

/-- Embedding of sort_values(list(by_cols) + [max_col]): a stable
lexicographic sort over the key columns followed by the value column. -/
def groupby_sorted (cols byCols : List String) (maxCol : String)
    (shuffled : List RowT) : List RowT :=
  sortStable (fun r s =>
    lexLe (rowKey cols (byCols ++ [maxCol]) r) (rowKey cols (byCols ++ [maxCol]) s)) shuffled

/-- The rows _groupby_max retains: the shuffle df.sample(frac=1) is modelled
by taking the shuffled row list as input (theorems quantify over every
permutation), then a stable sort by key columns plus value column, then
drop_duplicates over the key columns keeping the last occurrence. -/
def groupby_selected (cols byCols : List String) (maxCol : String)
    (shuffled : List RowT) : List RowT :=
  keepLast (rowKey cols byCols) (groupby_sorted cols byCols maxCol shuffled)

/-- Embedding of _groupby_max (confidence.py lines 317 to 324): the index
labels of the rows that win their group. -/
def _groupby_max (cols byCols : List String) (maxCol : String)
    (shuffled : List RowT) : List Nat :=
  (groupby_selected cols byCols maxCol shuffled).map Prod.fst

/-- Embedding of df.loc[idx] over an index of unique labels: the row carrying
each requested label, in the order the labels are listed. -/
def locRows (rows : List RowT) (idx : List Nat) : List RowT :=
  idx.filterMap (fun i => rows.find? (fun r => r.1 == i))

/-- Embedding of Confidence._perform_tdc (confidence.py lines 101 to 111):
target-decoy competition replaces the working table by the best-scoring row
of every composite-key group. -/
def _perform_tdc (cols byCols : List String) (maxCol : String)
    (rows shuffled : List RowT) : List RowT :=
  locRows rows (_groupby_max cols byCols maxCol shuffled)

/-- Each row extended with one appended cell, rows and cells aligned. -/
def appendRows (rows : List RowT) (vals : List Cell) : List RowT :=
  (rows.zip vals).map (fun p => (p.1.1, p.1.2 ++ [p.2]))

/-- Column assignment df[c] = vals: replaces the cells of an existing column
or appends a new one; pandas raises when the value vector length differs from
the row count. -/
def assignCol (df : DataFrame) (c : String) (vals : List Cell) :
    Except String DataFrame :=
  if df.rows.length = vals.length then
    if c ∈ df.cols then
      .ok ⟨df.cols, (df.rows.zip vals).map (fun p =>
        (p.1.1, ((df.cols.zip p.1.2).map (fun q => if q.1 = c then p.2 else q.2))))⟩
    else
      .ok ⟨df.cols ++ [c], appendRows df.rows vals⟩
  else .error "Length of values does not match length of index"

/-- numpy boolean-mask selection over an aligned vector. -/
def maskVals {α : Type} (xs : List α) (mask : List Bool) : List α :=
  (xs.zip mask).filterMap (fun p => if p.2 then some p.1 else none)

/-- Boolean-mask row selection, df.loc[mask, :]. -/
def filterRows (df : DataFrame) (mask : List Bool) : DataFrame :=
  ⟨df.cols, maskVals df.rows mask⟩

/-- sort_values by a single column in the given direction.  The embedding
sorts stably; only sortedness and the permutation property are used. -/
def sortRowsBy (df : DataFrame) (c : String) (asc : Bool) : DataFrame :=
  ⟨df.cols, sortStable (fun r s =>
      if asc then Cell.le (getCell df.cols c r.2) (getCell df.cols c s.2)
      else Cell.le (getCell df.cols c s.2) (getCell df.cols c r.2)) df.rows⟩

/-- reset_index(drop=True): row labels become 0, 1, 2, ... -/
def resetIndex (df : DataFrame) : DataFrame :=
  ⟨df.cols, (df.rows.map Prod.snd).enum⟩

/-- The cells of one row once the columns labelled c are removed, walking the
column labels and the cells side by side. -/
def dropColCells (cols : List String) (c : String) (cells : List Cell) : List Cell :=
  match cols, cells with
  | [], _ => []
  | _ :: _, [] => []
  | x :: xs, y :: ys =>
    if x == c then dropColCells xs c ys else y :: dropColCells xs c ys

/-- drop(c, axis=1): removes the column labelled c. -/
def dropCol (df : DataFrame) (c : String) : DataFrame :=
  ⟨df.cols.filter (fun x => !(x == c)),
    df.rows.map (fun r => (r.1, dropColCells df.cols c r.2))⟩

/-- rename(columns): relabels a column, cells untouched. -/
def renameCol (df : DataFrame) (old c : String) : DataFrame :=
  ⟨df.cols.map (fun x => if x = old then c else x), df.rows⟩

/-- The smaller of two cells under the numeric order. -/
def cellMin (a b : Cell) : Cell := if Cell.le a b then a else b

/-- The decoy-to-target count ratio at the threshold set by one score, in the
chosen direction, clamped to one; denominators stay positive by construction. -/
def tdcRatio (pairs : List (Cell × Bool)) (desc : Bool) (s : Cell) : Cell :=
  let atOrAbove := pairs.filter (fun q => if desc then Cell.le s q.1 else Cell.le q.1 s)
  let d := (atOrAbove.filter (fun q => !q.2)).length
  let t := (atOrAbove.filter (fun q => q.2)).length
  if t = 0 then Cell.ofInt 1 else ⟨Int.ofNat (min d t), t - 1⟩

/-- Modelled from the spec: the q-value primitive qvalues.tdc is code of this
repository that is not under src/ (confidence.py imports it from the sibling
qvalues module).  Contract per spec sections 4.3 step 4, 6 and 7: given
aligned score and boolean target vectors and a direction flag, return for
every observation the smallest false-discovery-rate threshold at which it
would be accepted, the ratio of decoy to target counts at and above each
score in the chosen direction, monotone and in [0, 1]; degenerate input
(mismatched lengths, no targets, or no decoys) is surfaced as a hard
failure rather than silently producing degenerate values. -/
def tdc (scores : List Cell) (targets : List Bool) (desc : Bool) :
    Except String (List Cell) :=
  if scores.length ≠ targets.length then
    .error "scores and targets differ in length"
  else if targets.all (fun t => t) then
    .error "no decoy scores were provided"
  else if targets.all (fun t => !t) then
    .error "no target scores were provided"
  else
    let pairs := scores.zip targets
    .ok (pairs.map (fun p =>
      ((pairs.filter (fun q => if desc then Cell.le q.1 p.1 else Cell.le p.1 q.1)).map
          (fun q => tdcRatio pairs desc q.1)).foldl cellMin (tdcRatio pairs desc p.1)))

/-- The steps of the per-level loop body after the q-value column is
attached: keep the target rows, sort by score in the requested direction,
reset the index, drop the target column, rename the score column, and attach
the PEP vector the external primitive returns on the target and decoy score
samples (confidence.py lines 235 to 244). -/
def assign_level_post (df1 : DataFrame) (scoreCol targetCol : String)
    (desc : Bool) (scores : List Cell) (targets : List Bool)
    (pepFn : List Cell → List Cell → List Cell) : Except String DataFrame :=
  let kept := filterRows df1 targets
  let sorted := sortRowsBy kept scoreCol (!desc)
  let reset := resetIndex sorted
  let dropped := dropCol reset targetCol
  let renamed := renameCol dropped scoreCol "mokapot score"
  let pep := pepFn (maskVals scores targets) (maskVals scores (targets.map (fun b => !b)))
  assignCol renamed "mokapot PEP" pep

/-- Embedding of the per-level loop body of LinearConfidence._assign_confidence
(confidence.py lines 228 to 245): read scores and boolean targets, ask the
q-value primitive and attach its answer, then run the remaining steps. -/
def assign_level (df : DataFrame) (scoreCol targetCol : String) (desc : Bool)
    (pepFn : List Cell → List Cell → List Cell) : Except String DataFrame := do
  let scores := getCol df scoreCol
  let targets := (getCol df targetCol).map (fun v => decide (v.num ≠ 0))
  let qvals ← tdc scores targets desc
  let df1 ← assignCol df "mokapot q-value" qvals
  assign_level_post df1 scoreCol targetCol desc scores targets pepFn

/-- The peptide-level table, confidence.py lines 222 to 225:
data.loc[_groupby_max(data, peptide_columns, score_column)]. -/
def peptidesOf (df : DataFrame) (peptideCols : List String) (scoreCol : String)
    (shuffled : List RowT) : DataFrame :=
  ⟨df.cols, locRows df.rows (_groupby_max df.cols peptideCols scoreCol shuffled)⟩

/-- Embedding of LinearConfidence._assign_confidence (lines 213 to 245): the
spectrum-collapsed working table and its peptide-level collapse each get
q-values and PEPs and are stored in order under "psms" and "peptides". -/
def linear_assign (df : DataFrame) (scoreCol targetCol : String)
    (peptideCols : List String) (pepShuffle : List RowT) (desc : Bool)
    (pepFn : List Cell → List Cell → List Cell) :
    Except String (List (String × DataFrame)) := do
  let peptides := peptidesOf df peptideCols scoreCol pepShuffle
  let psmsTable ← assign_level df scoreCol targetCol desc pepFn
  let pepTable ← assign_level peptides scoreCol targetCol desc pepFn
  return [("psms", psmsTable), ("peptides", pepTable)]

/-- Line 300 of confidence.py: the ternary label column cast with
astype(bool), true exactly for rows whose label is non-zero.  This boolean
vector is what CrossLinkedConfidence hands to the cross-link q-value
primitive. -/
def crosslink_targets (df : DataFrame) (targetCol : String) : List Bool :=
  (getCol df targetCol).map (fun v => decide (v.num ≠ 0))

/-- Line 310: the positive PEP sample, scores[targets == 2].  numpy compares
the boolean target vector elementwise with the integer 2 (a boolean promotes
to 0 or 1). -/
def crosslink_pep_pos (scores : List Cell) (targets : List Bool) : List Cell :=
  maskVals scores (targets.map (fun b => (if b then (1 : Nat) else 0) == 2))

/-- Line 311: the negative PEP sample, scores[~targets]. -/
def crosslink_pep_neg (scores : List Cell) (targets : List Bool) : List Cell :=
  maskVals scores (targets.map (fun b => !b))

/-- Embedding of the per-level loop body of
CrossLinkedConfidence._assign_confidence (lines 298 to 313).  The cross-link
q-value primitive (qvalues.crosslink_tdc, repository code outside src/) and
the PEP primitive are parameters constrained by their documented contracts. -/
def crosslink_assign_level (df : DataFrame) (scoreCol targetCol : String)
    (desc : Bool)
    (clTdc : List Cell → List Bool → Bool → Except String (List Cell))
    (pepFn : List Cell → List Cell → List Cell) : Except String DataFrame := do
  let scores := getCol df scoreCol
  let targets := crosslink_targets df targetCol
  let qvals ← clTdc scores targets desc
  let df1 ← assignCol df "mokapot q-value" qvals
  let kept := filterRows df1 targets
  let sorted := sortRowsBy kept scoreCol (!desc)
  let reset := resetIndex sorted
  let dropped := dropCol reset targetCol
  let renamed := renameCol dropped scoreCol "mokapot score"
  let pep := pepFn (crosslink_pep_pos scores targets) (crosslink_pep_neg scores targets)
  assignCol renamed "mokapot PEP" pep

/-- Embedding of CrossLinkedConfidence._assign_confidence over both levels,
stored in order under "csms" and "peptide_pairs". -/
def crosslink_assign (df : DataFrame) (scoreCol targetCol : String)
    (peptideCols : List String) (pepShuffle : List RowT) (desc : Bool)
    (clTdc : List Cell → List Bool → Bool → Except String (List Cell))
    (pepFn : List Cell → List Cell → List Cell) :
    Except String (List (String × DataFrame)) := do
  let peptides := peptidesOf df peptideCols scoreCol pepShuffle
  let csmsTable ← crosslink_assign_level df scoreCol targetCol desc clTdc pepFn
  let pairTable ← crosslink_assign_level peptides scoreCol targetCol desc clTdc pepFn
  return [("csms", csmsTable), ("peptide_pairs", pairTable)]

/-- Embedding of Confidence.__getattr__ (lines 54 to 58): a dictionary lookup
in the confidence-estimate store; a missing level surfaces as AttributeError. -/
def confidence_getattr {α : Type} (store : List (String × α)) (attr : String) :
    Except String α :=
  match store.find? (fun p => p.1 == attr) with
  | some p => .ok p.2
  | none => .error "AttributeError"

/-- posix os.path.join restricted to the relative file names this module
builds (the second component never starts with a separator): an empty
directory contributes nothing, a directory already ending in the separator
gets none inserted, any other directory gets exactly one. -/
def path_join (d b : String) : String :=
  if d = "" then b
  else if d.data.getLast? == some '/' then d ++ b
  else d ++ "/" ++ b

/-- Embedding of Confidence.to_txt (lines 68 to 99), restricted to the paths
it builds and returns; the delimited-text writes are side effects outside the
model.  The store lists the computed levels in insertion order. -/
def to_txt {α : Type} (store : List (String × α))
    (dest_dir file_root : Option String) : List String :=
  let base1 := "mokapot"
  let base2 := match file_root with
    | some r => r ++ "." ++ base1
    | none => base1
  let base3 := match dest_dir with
    | some d => path_join d base2
    | none => base2
  store.map (fun p => base3 ++ "." ++ p.1 ++ ".txt")

/-- Well-formedness of a DataFrame: every row has one cell per column. -/
def WF (df : DataFrame) : Prop := ∀ r ∈ df.rows, r.2.length = df.cols.length

/-- The shape C6 asserts of one stored result table, relative to the level
input table it was computed from: the target column is gone, the score column
is renamed to mokapot score, q-value and PEP columns are present, rows are
sorted by score in the requested direction, the index is reset, and the rows
(ignoring the appended q-value and PEP cells) are exactly the target rows of
the level input with the target column dropped. -/
def tableProps (scoreCol targetCol : String) (desc : Bool)
    (input table : DataFrame) : Prop :=
  targetCol ∉ table.cols
  ∧ scoreCol ∉ table.cols
  ∧ "mokapot score" ∈ table.cols
  ∧ "mokapot q-value" ∈ table.cols
  ∧ "mokapot PEP" ∈ table.cols
  ∧ (getCol table "mokapot score").Pairwise (fun a b =>
      (if desc then Cell.le b a else Cell.le a b) = true)
  ∧ table.rows.map Prod.fst = List.range table.rows.length
  ∧ (table.rows.map (fun r => r.2.dropLast.dropLast)).Perm
      ((filterRows input
          ((getCol input targetCol).map (fun v => decide (v.num ≠ 0)))).rows.map
        (fun r => dropColCells input.cols targetCol r.2))

/-- A concrete linear working table: a peptide key column, a score column and
a boolean target column; two rows share the peptide key 1, and targets and
decoys are both present at both levels. -/
def linDemo : DataFrame :=
  ⟨["pep", "s", "t"],
    [(0, [Cell.ofInt 1, Cell.ofInt 10, Cell.ofInt 1]),
      (1, [Cell.ofInt 1, Cell.ofInt 7, Cell.ofInt 0]),
      (2, [Cell.ofInt 2, Cell.ofInt 6, Cell.ofInt 1]),
      (3, [Cell.ofInt 3, Cell.ofInt 2, Cell.ofInt 0])]⟩

/-- A concrete PEP primitive obeying the alignment contract. -/
def linDemoPep : List Cell → List Cell → List Cell :=
  fun pos _ => pos.map (fun _ => Cell.ofInt 0)

/-- A concrete cross-linked working table: three rows, one per ternary label
value (0 decoy-decoy with score 10, 1 mixed with score 20, 2 target-target
with score 30). -/
def xlTable : DataFrame :=
  ⟨["s", "t"],
    [(0, [Cell.ofInt 10, Cell.ofInt 0]), (1, [Cell.ofInt 20, Cell.ofInt 1]),
      (2, [Cell.ofInt 30, Cell.ofInt 2])]⟩

/-- The path format C10 states for one level: an optional destination-directory
prefix, an optional file-root prefix, then mokapot.<level>.txt. -/
def claimed_txt_path (dest_dir file_root : Option String) (level : String) : String :=
  match dest_dir, file_root with
  | some d, some r => d ++ "/" ++ r ++ "." ++ "mokapot." ++ level ++ ".txt"
  | some d, none => d ++ "/" ++ "mokapot." ++ level ++ ".txt"
  | none, some r => r ++ "." ++ "mokapot." ++ level ++ ".txt"
  | none, none => "mokapot." ++ level ++ ".txt"

theorem Cell.den_cast_pos (c : Cell) : (0 : ℚ) < (c.den : ℚ) + 1 := by
  positivity

theorem Cell.le_iff {a b : Cell} : Cell.le a b = true ↔ a.val ≤ b.val := by
  rw [Cell.le, decide_eq_true_iff, Cell.val, Cell.val,
    div_le_div_iff₀ a.den_cast_pos b.den_cast_pos]
  constructor <;> intro h <;> exact_mod_cast h

theorem Cell.lt_iff {a b : Cell} : Cell.lt a b = true ↔ a.val < b.val := by
  rw [Cell.lt, decide_eq_true_iff, Cell.val, Cell.val,
    div_lt_div_iff₀ a.den_cast_pos b.den_cast_pos]
  constructor <;> intro h <;> exact_mod_cast h

theorem Cell.lt_self (a : Cell) : Cell.lt a a = false := by
  rw [Bool.eq_false_iff]
  intro h
  exact lt_irrefl a.val (Cell.lt_iff.mp h)

theorem lexLe_cons_iff {a b : Cell} {as bs : List Cell} :
    lexLe (a :: as) (b :: bs) = true ↔
      a.val < b.val ∨ (a.val = b.val ∧ lexLe as bs = true) := by
  show (if Cell.lt a b then true else if Cell.lt b a then false else lexLe as bs) = true ↔ _
  by_cases hab : Cell.lt a b = true
  · simp only [hab, if_true, true_iff]
    exact Or.inl (Cell.lt_iff.mp hab)
  · by_cases hba : Cell.lt b a = true
    · simp only [hab, hba, Bool.false_eq_true, if_false, if_true, false_iff]
      rintro (h | ⟨h, _⟩)
      · exact absurd (Cell.lt_iff.mp hba) (lt_asymm h)
      · exact absurd (Cell.lt_iff.mp hba) (h ▸ lt_irrefl a.val)
    · have hv : a.val = b.val := by
        have h1 : ¬ a.val < b.val := fun h => hab (Cell.lt_iff.mpr h)
        have h2 : ¬ b.val < a.val := fun h => hba (Cell.lt_iff.mpr h)
        exact le_antisymm (not_lt.mp h2) (not_lt.mp h1)
      simp only [hab, hba, Bool.false_eq_true, if_false]
      constructor
      · intro h; exact Or.inr ⟨hv, h⟩
      · rintro (h | ⟨_, h⟩)
        · exact absurd h (hv ▸ lt_irrefl a.val)
        · exact h

theorem lexLe_refl (l : List Cell) : lexLe l l = true := by
  induction l with
  | nil => rfl
  | cons a as ih => exact lexLe_cons_iff.mpr (Or.inr ⟨rfl, ih⟩)

theorem lexLe_trans : ∀ {x y z : List Cell},
    lexLe x y = true → lexLe y z = true → lexLe x z = true
  | [], _, _, _, _ => rfl
  | _ :: _, [], _, h, _ => by simp [lexLe] at h
  | _ :: _, _ :: _, [], _, h => by simp [lexLe] at h
  | a :: as, b :: bs, c :: cs, h1, h2 => by
    rcases lexLe_cons_iff.mp h1 with hab | ⟨hab, htl1⟩ <;>
      rcases lexLe_cons_iff.mp h2 with hbc | ⟨hbc, htl2⟩
    · exact lexLe_cons_iff.mpr (Or.inl (lt_trans hab hbc))
    · exact lexLe_cons_iff.mpr (Or.inl (hbc ▸ hab))
    · exact lexLe_cons_iff.mpr (Or.inl (hab ▸ hbc))
    · exact lexLe_cons_iff.mpr (Or.inr ⟨hab.trans hbc, lexLe_trans htl1 htl2⟩)

theorem lexLe_total : ∀ (x y : List Cell), (lexLe x y || lexLe y x) = true
  | [], _ => by simp [lexLe]
  | _ :: _, [] => by simp [lexLe]
  | a :: as, b :: bs => by
    rcases lt_trichotomy a.val b.val with h | h | h
    · simp [lexLe_cons_iff.mpr (Or.inl h)]
    · rcases Bool.or_eq_true _ _ |>.mp (lexLe_total as bs) with ht | ht
      · simp [lexLe_cons_iff.mpr (Or.inr ⟨h, ht⟩)]
      · simp [lexLe_cons_iff.mpr (Or.inr ⟨h.symm, ht⟩)]
    · simp [lexLe_cons_iff.mpr (Or.inl h)]

theorem lexLe_append_same : ∀ (k u v : List Cell),
    lexLe (k ++ u) (k ++ v) = lexLe u v
  | [], _, _ => rfl
  | a :: as, u, v => by
    show (if Cell.lt a a then true else if Cell.lt a a then false else lexLe (as ++ u) (as ++ v)) = _
    rw [Cell.lt_self]
    simp only [Bool.false_eq_true, if_false]
    exact lexLe_append_same as u v

theorem le_of_lexLe_single {u v : Cell} (h : lexLe [u] [v] = true) :
    Cell.le u v = true := by
  rcases lexLe_cons_iff.mp h with h | ⟨h, _⟩
  · exact Cell.le_iff.mpr h.le
  · exact Cell.le_iff.mpr h.le

theorem keepLast_sublist {α κ : Type} [DecidableEq κ] (key : α → κ) :
    ∀ l : List α, (keepLast key l).Sublist l
  | [] => List.Sublist.refl []
  | a :: rest => by
    rw [keepLast]
    split
    · exact (keepLast_sublist key rest).cons a
    · exact (keepLast_sublist key rest).cons₂ a

theorem keepLast_subset {α κ : Type} [DecidableEq κ] (key : α → κ)
    (l : List α) : ∀ a ∈ keepLast key l, a ∈ l :=
  fun _ h => (keepLast_sublist key l).mem h

theorem keepLast_nodup_keys {α κ : Type} [DecidableEq κ] (key : α → κ) :
    ∀ l : List α, ((keepLast key l).map key).Nodup
  | [] => List.nodup_nil
  | a :: rest => by
    rw [keepLast]
    split
    · exact keepLast_nodup_keys key rest
    · rename_i hany
      rw [List.map_cons, List.nodup_cons]
      refine ⟨fun hmem => ?_, keepLast_nodup_keys key rest⟩
      rcases List.mem_map.mp hmem with ⟨b, hb, hkb⟩
      have hb' : b ∈ rest := keepLast_subset key rest b hb
      exact hany (List.any_eq_true.mpr ⟨b, hb', beq_iff_eq.mpr hkb⟩)

theorem keepLast_mem_keys {α κ : Type} [DecidableEq κ] (key : α → κ) :
    ∀ (l : List α) (k : κ), k ∈ (keepLast key l).map key ↔ k ∈ l.map key
  | [], _ => Iff.rfl
  | a :: rest, k => by
    rw [keepLast]
    split
    · rename_i hany
      rw [keepLast_mem_keys key rest k, List.map_cons, List.mem_cons]
      constructor
      · exact Or.inr
      · rintro (h | h)
        · rcases List.any_eq_true.mp hany with ⟨b, hb, hkb⟩
          exact List.mem_map.mpr ⟨b, hb, h ▸ beq_iff_eq.mp hkb⟩
        · exact h
    · rw [List.map_cons, List.map_cons, List.mem_cons, List.mem_cons,
        keepLast_mem_keys key rest k]

theorem keepLast_eq_self {α κ : Type} [DecidableEq κ] (key : α → κ) :
    ∀ l : List α, (l.map key).Nodup → keepLast key l = l
  | [], _ => rfl
  | a :: rest, h => by
    rw [List.map_cons, List.nodup_cons] at h
    rw [keepLast]
    have hany : ¬ rest.any (fun b => key b == key a) = true := by
      intro hx
      rcases List.any_eq_true.mp hx with ⟨b, hb, hkb⟩
      exact h.1 (List.mem_map.mpr ⟨b, hb, beq_iff_eq.mp hkb⟩)
    rw [if_neg hany, keepLast_eq_self key rest h.2]

theorem keepLast_max {α κ : Type} [DecidableEq κ] (key : α → κ)
    {P : α → α → Prop} (hrefl : ∀ a, P a a) :
    ∀ l : List α, l.Pairwise P →
      ∀ r ∈ keepLast key l, ∀ s ∈ l, key s = key r → P s r
  | [], _, _, hr, _, _, _ => absurd hr (List.not_mem_nil _)
  | a :: rest, hp, r, hr, s, hs, hk => by
    rw [List.pairwise_cons] at hp
    rw [keepLast] at hr
    revert hr
    split
    · intro hr
      rcases List.mem_cons.mp hs with rfl | hs'
      · exact hp.1 r (keepLast_subset key rest r hr)
      · exact keepLast_max key hrefl rest hp.2 r hr s hs' hk
    · rename_i hany
      simp only [List.any_eq_true, beq_iff_eq, not_exists, not_and] at hany
      intro hr
      rcases List.mem_cons.mp hr with rfl | hr'
      · rcases List.mem_cons.mp hs with rfl | hs'
        · exact hrefl s
        · exact absurd hk (hany s hs')
      · rcases List.mem_cons.mp hs with rfl | hs'
        · exact hp.1 r (keepLast_subset key rest r hr')
        · exact keepLast_max key hrefl rest hp.2 r hr' s hs' hk

theorem insertSorted_perm {α : Type} (le : α → α → Bool) (a : α) :
    ∀ l : List α, (insertSorted le a l).Perm (a :: l)
  | [] => List.Perm.refl [a]
  | b :: bs => by
    rw [insertSorted]
    split
    · exact List.Perm.refl _
    · exact ((insertSorted_perm le a bs).cons b).trans (List.Perm.swap a b bs)

theorem sortStable_perm {α : Type} (le : α → α → Bool) :
    ∀ l : List α, (sortStable le l).Perm l
  | [] => List.Perm.refl []
  | a :: as =>
    (insertSorted_perm le a (sortStable le as)).trans ((sortStable_perm le as).cons a)

theorem insertSorted_pairwise {α : Type} (le : α → α → Bool)
    (htrans : ∀ x y z, le x y = true → le y z = true → le x z = true)
    (htotal : ∀ x y, (le x y || le y x) = true) (a : α) :
    ∀ l : List α, l.Pairwise (fun x y => le x y = true) →
      (insertSorted le a l).Pairwise (fun x y => le x y = true)
  | [], _ => List.pairwise_singleton _ a
  | b :: bs, hp => by
    rw [List.pairwise_cons] at hp
    rw [insertSorted]
    split
    · rename_i hab
      rw [List.pairwise_cons]
      refine ⟨fun c hc => ?_, List.pairwise_cons.mpr hp⟩
      rcases List.mem_cons.mp hc with rfl | hc'
      · exact hab
      · exact htrans a b c hab (hp.1 c hc')
    · rename_i hab
      have hba : le b a = true := by
        rcases Bool.or_eq_true _ _ |>.mp (htotal a b) with h | h
        · exact absurd h hab
        · exact h
      rw [List.pairwise_cons]
      refine ⟨fun c hc => ?_, insertSorted_pairwise le htrans htotal a bs hp.2⟩
      rcases List.mem_cons.mp ((insertSorted_perm le a bs).mem_iff.mp hc) with rfl | hc'
      · exact hba
      · exact hp.1 c hc'

theorem sortStable_pairwise {α : Type} (le : α → α → Bool)
    (htrans : ∀ x y z, le x y = true → le y z = true → le x z = true)
    (htotal : ∀ x y, (le x y || le y x) = true) :
    ∀ l : List α, (sortStable le l).Pairwise (fun x y => le x y = true)
  | [] => List.Pairwise.nil
  | a :: as =>
    insertSorted_pairwise le htrans htotal a (sortStable le as)
      (sortStable_pairwise le htrans htotal as)

theorem rowKey_append (cols K L : List String) (r : RowT) :
    rowKey cols (K ++ L) r = rowKey cols K r ++ rowKey cols L r :=
  List.map_append _ _ _

theorem groupby_sorted_perm (cols byCols : List String) (maxCol : String)
    (shuffled : List RowT) :
    (groupby_sorted cols byCols maxCol shuffled).Perm shuffled :=
  sortStable_perm _ shuffled

theorem groupby_sorted_pairwise (cols byCols : List String) (maxCol : String)
    (shuffled : List RowT) :
    (groupby_sorted cols byCols maxCol shuffled).Pairwise (fun r s =>
      lexLe (rowKey cols (byCols ++ [maxCol]) r)
        (rowKey cols (byCols ++ [maxCol]) s) = true) := by
  unfold groupby_sorted
  exact sortStable_pairwise
    (fun r s => lexLe (rowKey cols (byCols ++ [maxCol]) r) (rowKey cols (byCols ++ [maxCol]) s))
    (fun _ _ _ h1 h2 => lexLe_trans h1 h2) (fun _ _ => lexLe_total _ _) shuffled

/-- C1: for every input table, every non-empty ordered key-column set and
every value column, _groupby_max (modelled over an arbitrary shuffle of the
rows) returns the index of exactly one row per distinct key value present in
the table, and that row carries the maximum of the value column within its
key group: the retained rows have pairwise distinct keys, their keys are
exactly the keys occurring in the table, each retained row is a row of the
table, and its value cell dominates every row that shares its key. -/
theorem groupby_max_unique_and_max (cols byCols : List String) (maxCol : String)
    (rows shuffled : List RowT) (hK : byCols ≠ []) (hperm : shuffled.Perm rows) :
    _groupby_max cols byCols maxCol shuffled
        = (groupby_selected cols byCols maxCol shuffled).map Prod.fst
    ∧ ((groupby_selected cols byCols maxCol shuffled).map (rowKey cols byCols)).Nodup
    ∧ (∀ k : List Cell,
        k ∈ (groupby_selected cols byCols maxCol shuffled).map (rowKey cols byCols)
          ↔ k ∈ rows.map (rowKey cols byCols))
    ∧ ∀ r ∈ groupby_selected cols byCols maxCol shuffled, r ∈ rows ∧
        ∀ s ∈ rows, rowKey cols byCols s = rowKey cols byCols r →
          Cell.le (getCell cols maxCol s.2) (getCell cols maxCol r.2) = true := by
  have hsp : (groupby_sorted cols byCols maxCol shuffled).Perm rows :=
    (groupby_sorted_perm cols byCols maxCol shuffled).trans hperm
  refine ⟨rfl, keepLast_nodup_keys _ _, fun k => ?_, fun r hr => ?_⟩
  · rw [groupby_selected, keepLast_mem_keys]
    exact (hsp.map (rowKey cols byCols)).mem_iff
  · have hrs : r ∈ groupby_sorted cols byCols maxCol shuffled :=
      keepLast_subset _ _ r hr
    refine ⟨hsp.mem_iff.mp hrs, fun s hs hks => ?_⟩
    have hs' : s ∈ groupby_sorted cols byCols maxCol shuffled := hsp.mem_iff.mpr hs
    have hmax := keepLast_max (rowKey cols byCols) (fun a => lexLe_refl _)
      (groupby_sorted cols byCols maxCol shuffled)
      (groupby_sorted_pairwise cols byCols maxCol shuffled) r hr s hs' hks
    rw [rowKey_append, rowKey_append, hks] at hmax
    rw [lexLe_append_same] at hmax
    exact le_of_lexLe_single hmax

/-- Witness for C1 at a concrete three-row table with two key groups and a
concrete shuffle. -/
theorem groupby_max_unique_and_max_witness :
    ((["k"] : List String) ≠ [] ∧
      ([((2 : Nat), [Cell.ofInt 2, Cell.ofInt 3]), (0, [Cell.ofInt 1, Cell.ofInt 5]),
        (1, [Cell.ofInt 1, Cell.ofInt 7])] : List RowT).Perm
        [(0, [Cell.ofInt 1, Cell.ofInt 5]), (1, [Cell.ofInt 1, Cell.ofInt 7]),
          (2, [Cell.ofInt 2, Cell.ofInt 3])])
    ∧ (_groupby_max ["k", "v"] ["k"] "v"
          [(2, [Cell.ofInt 2, Cell.ofInt 3]), (0, [Cell.ofInt 1, Cell.ofInt 5]),
            (1, [Cell.ofInt 1, Cell.ofInt 7])]
          = (groupby_selected ["k", "v"] ["k"] "v"
              [(2, [Cell.ofInt 2, Cell.ofInt 3]), (0, [Cell.ofInt 1, Cell.ofInt 5]),
                (1, [Cell.ofInt 1, Cell.ofInt 7])]).map Prod.fst
        ∧ ((groupby_selected ["k", "v"] ["k"] "v"
              [(2, [Cell.ofInt 2, Cell.ofInt 3]), (0, [Cell.ofInt 1, Cell.ofInt 5]),
                (1, [Cell.ofInt 1, Cell.ofInt 7])]).map (rowKey ["k", "v"] ["k"])).Nodup
        ∧ (∀ k : List Cell,
            k ∈ (groupby_selected ["k", "v"] ["k"] "v"
                  [(2, [Cell.ofInt 2, Cell.ofInt 3]), (0, [Cell.ofInt 1, Cell.ofInt 5]),
                    (1, [Cell.ofInt 1, Cell.ofInt 7])]).map (rowKey ["k", "v"] ["k"])
              ↔ k ∈ ([(0, [Cell.ofInt 1, Cell.ofInt 5]), (1, [Cell.ofInt 1, Cell.ofInt 7]),
                  (2, [Cell.ofInt 2, Cell.ofInt 3])] : List RowT).map (rowKey ["k", "v"] ["k"]))
        ∧ ∀ r ∈ groupby_selected ["k", "v"] ["k"] "v"
              [(2, [Cell.ofInt 2, Cell.ofInt 3]), (0, [Cell.ofInt 1, Cell.ofInt 5]),
                (1, [Cell.ofInt 1, Cell.ofInt 7])],
            r ∈ ([(0, [Cell.ofInt 1, Cell.ofInt 5]), (1, [Cell.ofInt 1, Cell.ofInt 7]),
                (2, [Cell.ofInt 2, Cell.ofInt 3])] : List RowT) ∧
              ∀ s ∈ ([(0, [Cell.ofInt 1, Cell.ofInt 5]), (1, [Cell.ofInt 1, Cell.ofInt 7]),
                  (2, [Cell.ofInt 2, Cell.ofInt 3])] : List RowT),
                rowKey ["k", "v"] ["k"] s = rowKey ["k", "v"] ["k"] r →
                  Cell.le (getCell ["k", "v"] "v" s.2) (getCell ["k", "v"] "v" r.2) = true) :=
  ⟨⟨by decide, by decide⟩,
    groupby_max_unique_and_max ["k", "v"] ["k"] "v" _ _ (by decide) (by decide)⟩

theorem find_eq_some_of_nodup :
    ∀ (rows : List RowT), (rows.map Prod.fst).Nodup →
      ∀ r ∈ rows, rows.find? (fun x => x.1 == r.1) = some r
  | [], _, r, hr => absurd hr (List.not_mem_nil r)
  | a :: rest, hidx, r, hr => by
    rw [List.map_cons, List.nodup_cons] at hidx
    rw [List.find?]
    rcases List.mem_cons.mp hr with rfl | hr'
    · rw [beq_self_eq_true]
    · have hne : (a.1 == r.1) = false := by
        rw [beq_eq_false_iff_ne]
        intro h
        exact hidx.1 (List.mem_map.mpr ⟨r, hr', h.symm⟩)
      rw [hne]
      exact find_eq_some_of_nodup rest hidx.2 r hr'

theorem locRows_of_selected (rows : List RowT)
    (hidx : (rows.map Prod.fst).Nodup) :
    ∀ sel : List RowT, (∀ r ∈ sel, r ∈ rows) →
      locRows rows (sel.map Prod.fst) = sel
  | [], _ => rfl
  | s :: sel', hsub => by
    have hfind : List.find? (fun r => r.1 == s.1) rows = some s :=
      find_eq_some_of_nodup rows hidx s (hsub s (List.mem_cons_self s sel'))
    have ih : (sel'.map Prod.fst).filterMap (fun i => rows.find? (fun r => r.1 == i)) = sel' :=
      locRows_of_selected rows hidx sel' (fun r hr => hsub r (List.mem_cons_of_mem s hr))
    show ((s :: sel').map Prod.fst).filterMap (fun i => rows.find? (fun r => r.1 == i)) = s :: sel'
    rw [List.map_cons, List.filterMap_cons, hfind, ih]

theorem groupby_selected_subset (cols byCols : List String) (maxCol : String)
    (rows shuffled : List RowT) (hperm : shuffled.Perm rows) :
    ∀ r ∈ groupby_selected cols byCols maxCol shuffled, r ∈ rows :=
  fun r hr =>
    ((groupby_sorted_perm cols byCols maxCol shuffled).trans hperm).mem_iff.mp
      (keepLast_subset _ _ r hr)

/-- C8: the peptide-level table is obtained from the already-collapsed
PSM-level table by locating the rows _groupby_max selects, so its row count
never exceeds the PSM-level row count. -/
theorem peptide_level_le_psm_level (cols byCols : List String) (maxCol : String)
    (rows shuffled : List RowT) (hperm : shuffled.Perm rows) :
    (_perform_tdc cols byCols maxCol rows shuffled).length ≤ rows.length := by
  calc (_perform_tdc cols byCols maxCol rows shuffled).length
      ≤ (_groupby_max cols byCols maxCol shuffled).length :=
        List.length_filterMap_le _ _
    _ = (groupby_selected cols byCols maxCol shuffled).length := List.length_map _ _
    _ ≤ (groupby_sorted cols byCols maxCol shuffled).length :=
        (keepLast_sublist _ _).length_le
    _ = shuffled.length := (groupby_sorted_perm cols byCols maxCol shuffled).length_eq
    _ = rows.length := hperm.length_eq

/-- Witness for C8 at a concrete two-row table collapsing to one peptide. -/
theorem peptide_level_le_psm_level_witness :
    (([((1 : Nat), [Cell.ofInt 4, Cell.ofInt 9]), (0, [Cell.ofInt 4, Cell.ofInt 2])] : List RowT).Perm
        [(0, [Cell.ofInt 4, Cell.ofInt 2]), (1, [Cell.ofInt 4, Cell.ofInt 9])])
    ∧ (_perform_tdc ["pep", "s"] ["pep"] "s"
          [(0, [Cell.ofInt 4, Cell.ofInt 2]), (1, [Cell.ofInt 4, Cell.ofInt 9])]
          [(1, [Cell.ofInt 4, Cell.ofInt 9]), (0, [Cell.ofInt 4, Cell.ofInt 2])]).length
        ≤ ([(0, [Cell.ofInt 4, Cell.ofInt 2]), (1, [Cell.ofInt 4, Cell.ofInt 9])] : List RowT).length :=
  ⟨by decide, peptide_level_le_psm_level ["pep", "s"] ["pep"] "s" _ _ (by decide)⟩

/-- C9: target-decoy competition is idempotent on row membership.  Running
_perform_tdc (with any shuffle) on the output of a _perform_tdc with the same
key columns and value column selects exactly the same set of rows. -/
theorem perform_tdc_idempotent (cols byCols : List String) (maxCol : String)
    (data shuffled1 shuffled2 : List RowT)
    (hidx : (data.map Prod.fst).Nodup)
    (h1 : shuffled1.Perm data)
    (h2 : shuffled2.Perm (_perform_tdc cols byCols maxCol data shuffled1)) :
    (_perform_tdc cols byCols maxCol
        (_perform_tdc cols byCols maxCol data shuffled1) shuffled2).Perm
      (_perform_tdc cols byCols maxCol data shuffled1) := by
  have hsub1 := groupby_selected_subset cols byCols maxCol data shuffled1 h1
  have hout1 : _perform_tdc cols byCols maxCol data shuffled1
      = groupby_selected cols byCols maxCol shuffled1 :=
    locRows_of_selected data hidx _ hsub1
  have hsortperm1 : (groupby_sorted cols byCols maxCol shuffled1).Perm data :=
    (groupby_sorted_perm cols byCols maxCol shuffled1).trans h1
  have hidx1 : ((groupby_selected cols byCols maxCol shuffled1).map Prod.fst).Nodup := by
    have hsl : ((groupby_selected cols byCols maxCol shuffled1).map Prod.fst).Sublist
        ((groupby_sorted cols byCols maxCol shuffled1).map Prod.fst) :=
      (keepLast_sublist _ _).map Prod.fst
    exact hsl.nodup (((hsortperm1).map Prod.fst).nodup_iff.mpr hidx)
  have hsortperm2 : (groupby_sorted cols byCols maxCol shuffled2).Perm
      (groupby_selected cols byCols maxCol shuffled1) :=
    (groupby_sorted_perm cols byCols maxCol shuffled2).trans (hout1 ▸ h2)
  have hkeys2 : ((groupby_sorted cols byCols maxCol shuffled2).map (rowKey cols byCols)).Nodup :=
    ((hsortperm2).map (rowKey cols byCols)).nodup_iff.mpr (keepLast_nodup_keys _ _)
  have hsel2 : groupby_selected cols byCols maxCol shuffled2
      = groupby_sorted cols byCols maxCol shuffled2 :=
    keepLast_eq_self _ _ hkeys2
  have hsub2 : ∀ r ∈ groupby_selected cols byCols maxCol shuffled2,
      r ∈ _perform_tdc cols byCols maxCol data shuffled1 := by
    intro r hr
    rw [hsel2] at hr
    rw [hout1]
    exact hsortperm2.mem_iff.mp hr
  have hout2 : _perform_tdc cols byCols maxCol
      (_perform_tdc cols byCols maxCol data shuffled1) shuffled2
      = groupby_selected cols byCols maxCol shuffled2 :=
    locRows_of_selected _ (hout1 ▸ hidx1) _ hsub2
  rw [hout2, hsel2, hout1]
  exact hsortperm2

/-- Witness for C9 at a concrete table: two rows share one key, one row is
alone in its key group; the second pass keeps the first pass output intact. -/
theorem perform_tdc_idempotent_witness :
    (([((0 : Nat), [Cell.ofInt 1, Cell.ofInt 5]), (1, [Cell.ofInt 1, Cell.ofInt 7]),
        (2, [Cell.ofInt 2, Cell.ofInt 3])] : List RowT).map Prod.fst).Nodup
    ∧ ([((2 : Nat), [Cell.ofInt 2, Cell.ofInt 3]), (1, [Cell.ofInt 1, Cell.ofInt 7]),
        (0, [Cell.ofInt 1, Cell.ofInt 5])] : List RowT).Perm
        [(0, [Cell.ofInt 1, Cell.ofInt 5]), (1, [Cell.ofInt 1, Cell.ofInt 7]),
          (2, [Cell.ofInt 2, Cell.ofInt 3])]
    ∧ ([((2 : Nat), [Cell.ofInt 2, Cell.ofInt 3]), (1, [Cell.ofInt 1, Cell.ofInt 7])] : List RowT).Perm
        (_perform_tdc ["k", "v"] ["k"] "v"
          [(0, [Cell.ofInt 1, Cell.ofInt 5]), (1, [Cell.ofInt 1, Cell.ofInt 7]),
            (2, [Cell.ofInt 2, Cell.ofInt 3])]
          [(2, [Cell.ofInt 2, Cell.ofInt 3]), (1, [Cell.ofInt 1, Cell.ofInt 7]),
            (0, [Cell.ofInt 1, Cell.ofInt 5])])
    ∧ (_perform_tdc ["k", "v"] ["k"] "v"
        (_perform_tdc ["k", "v"] ["k"] "v"
          [(0, [Cell.ofInt 1, Cell.ofInt 5]), (1, [Cell.ofInt 1, Cell.ofInt 7]),
            (2, [Cell.ofInt 2, Cell.ofInt 3])]
          [(2, [Cell.ofInt 2, Cell.ofInt 3]), (1, [Cell.ofInt 1, Cell.ofInt 7]),
            (0, [Cell.ofInt 1, Cell.ofInt 5])])
        [(2, [Cell.ofInt 2, Cell.ofInt 3]), (1, [Cell.ofInt 1, Cell.ofInt 7])]).Perm
      (_perform_tdc ["k", "v"] ["k"] "v"
        [(0, [Cell.ofInt 1, Cell.ofInt 5]), (1, [Cell.ofInt 1, Cell.ofInt 7]),
          (2, [Cell.ofInt 2, Cell.ofInt 3])]
        [(2, [Cell.ofInt 2, Cell.ofInt 3]), (1, [Cell.ofInt 1, Cell.ofInt 7]),
          (0, [Cell.ofInt 1, Cell.ofInt 5])]) :=
  ⟨by decide, by decide, by decide,
    perform_tdc_idempotent ["k", "v"] ["k"] "v" _ _ _ (by decide) (by decide) (by decide)⟩

theorem Cell.le_total (a b : Cell) : (Cell.le a b || Cell.le b a) = true := by
  by_cases h : a.val ≤ b.val
  · rw [Cell.le_iff.mpr h, Bool.true_or]
  · rw [Cell.le_iff.mpr (le_of_not_le h), Bool.or_true]

theorem Cell.le_trans {a b c : Cell} (h1 : Cell.le a b = true)
    (h2 : Cell.le b c = true) : Cell.le a c = true :=
  Cell.le_iff.mpr ((Cell.le_iff.mp h1).trans (Cell.le_iff.mp h2))

theorem appendRows_nil (vals : List Cell) : appendRows [] vals = [] := rfl

theorem appendRows_cons (r : RowT) (rs : List RowT) (v : Cell) (vs : List Cell) :
    appendRows (r :: rs) (v :: vs) = (r.1, r.2 ++ [v]) :: appendRows rs vs := rfl

theorem appendRows_map_fst : ∀ (rows : List RowT) (vals : List Cell),
    rows.length = vals.length →
    (appendRows rows vals).map Prod.fst = rows.map Prod.fst
  | [], _, _ => rfl
  | r :: rs, [], h => by simp at h
  | r :: rs, v :: vs, h => by
    rw [appendRows_cons, List.map_cons, List.map_cons,
      appendRows_map_fst rs vs (Nat.succ_injective h)]

theorem appendRows_map_dropLast : ∀ (rows : List RowT) (vals : List Cell),
    rows.length = vals.length →
    (appendRows rows vals).map (fun x => x.2.dropLast) = rows.map Prod.snd
  | [], _, _ => rfl
  | r :: rs, [], h => by simp at h
  | r :: rs, v :: vs, h => by
    rw [appendRows_cons, List.map_cons, List.map_cons,
      appendRows_map_dropLast rs vs (Nat.succ_injective h)]
    congr 1
    show (r.2 ++ [v]).dropLast = r.2
    rw [List.dropLast_concat]

theorem appendRows_length (rows : List RowT) (vals : List Cell)
    (h : rows.length = vals.length) :
    (appendRows rows vals).length = rows.length := by
  rw [appendRows, List.length_map, List.length_zip, h, Nat.min_self]

theorem appendRows_mem (rows : List RowT) (vals : List Cell) :
    ∀ x ∈ appendRows rows vals, ∃ r ∈ rows, ∃ v, x = (r.1, r.2 ++ [v]) := by
  intro x hx
  rcases List.mem_map.mp hx with ⟨p, hp, rfl⟩
  exact ⟨p.1, (List.of_mem_zip hp).1, p.2, rfl⟩

theorem maskVals_sub {α : Type} (xs : List α) (mask : List Bool) :
    ∀ a ∈ maskVals xs mask, a ∈ xs := by
  intro a ha
  rcases List.mem_filterMap.mp ha with ⟨p, hp, hpa⟩
  by_cases hb : p.2 = true
  · rw [if_pos hb, Option.some.injEq] at hpa
    exact hpa ▸ (List.of_mem_zip hp).1
  · rw [if_neg hb] at hpa
    cases hpa

theorem maskVals_nil_left {α : Type} (mask : List Bool) :
    maskVals ([] : List α) mask = [] := rfl

theorem maskVals_nil_right {α : Type} (xs : List α) : maskVals xs [] = [] := by
  unfold maskVals
  rw [List.zip_nil_right]
  rfl

theorem maskVals_cons_true {α : Type} (x : α) (xs : List α) (bs : List Bool) :
    maskVals (x :: xs) (true :: bs) = x :: maskVals xs bs := rfl

theorem maskVals_cons_false {α : Type} (x : α) (xs : List α) (bs : List Bool) :
    maskVals (x :: xs) (false :: bs) = maskVals xs bs := rfl

theorem maskVals_map {α β : Type} (f : α → β) :
    ∀ (xs : List α) (mask : List Bool),
      maskVals (xs.map f) mask = (maskVals xs mask).map f
  | [], _ => rfl
  | x :: xs, [] => by rw [maskVals_nil_right, maskVals_nil_right]; rfl
  | x :: xs, true :: bs => by
    rw [List.map_cons, maskVals_cons_true, maskVals_cons_true, List.map_cons,
      maskVals_map f xs bs]
  | x :: xs, false :: bs => by
    rw [List.map_cons, maskVals_cons_false, maskVals_cons_false, maskVals_map f xs bs]

theorem maskVals_length_eq {α β : Type} :
    ∀ (xs : List α) (ys : List β) (mask : List Bool),
      xs.length = mask.length → ys.length = mask.length →
      (maskVals xs mask).length = (maskVals ys mask).length
  | [], [], _, _, _ => rfl
  | [], y :: ys, mask, hx, hy => by rw [← hx] at hy; simp at hy
  | x :: xs, [], mask, hx, hy => by rw [← hx] at hy; simp at hy
  | x :: xs, y :: ys, [], hx, _ => by simp at hx
  | x :: xs, y :: ys, true :: bs, hx, hy => by
    rw [maskVals_cons_true, maskVals_cons_true, List.length_cons, List.length_cons,
      maskVals_length_eq xs ys bs (Nat.succ_injective hx) (Nat.succ_injective hy)]
  | x :: xs, y :: ys, false :: bs, hx, hy => by
    rw [maskVals_cons_false, maskVals_cons_false,
      maskVals_length_eq xs ys bs (Nat.succ_injective hx) (Nat.succ_injective hy)]

theorem lookupCell_cons (p : String × Cell) (ps : List (String × Cell)) (c : String) :
    lookupCell (p :: ps) c = if (p.1 == c) = true then p.2 else lookupCell ps c := by
  by_cases hp : (p.1 == c) = true
  · rw [if_pos hp]
    unfold lookupCell
    rw [List.find?_cons_of_pos _ (by exact hp)]
  · rw [if_neg hp]
    unfold lookupCell
    rw [List.find?_cons_of_neg _ (by exact hp)]

theorem lookupCell_pair_cons (xn : String) (xv : Cell)
    (ps : List (String × Cell)) (c : String) :
    lookupCell ((xn, xv) :: ps) c
      = if (xn == c) = true then xv else lookupCell ps c :=
  lookupCell_cons (xn, xv) ps c

theorem lookupCell_append_of_forall_ne (c : String) :
    ∀ (ps qs : List (String × Cell)), (∀ p ∈ ps, (p.1 == c) = false) →
      lookupCell (ps ++ qs) c = lookupCell qs c
  | [], _, _ => rfl
  | p :: ps', qs, h => by
    rw [List.cons_append, lookupCell_cons p (ps' ++ qs) c,
      if_neg (by rw [h p (List.mem_cons_self p ps')]; exact Bool.false_ne_true)]
    exact lookupCell_append_of_forall_ne c ps' qs
      (fun q hq => h q (List.mem_cons_of_mem p hq))

theorem lookupCell_append_of_mem (c : String) :
    ∀ (ps qs : List (String × Cell)), c ∈ ps.map Prod.fst →
      lookupCell (ps ++ qs) c = lookupCell ps c
  | [], _, h => absurd h (List.not_mem_nil c)
  | p :: ps', qs, h => by
    rw [List.cons_append, lookupCell_cons p (ps' ++ qs) c, lookupCell_cons p ps' c]
    by_cases hp : (p.1 == c) = true
    · rw [if_pos hp, if_pos hp]
    · have hp' : (p.1 == c) = false := Bool.eq_false_iff.mpr hp
      rw [if_neg hp, if_neg hp]
      have h' : c ∈ ps'.map Prod.fst := by
        rcases List.mem_cons.mp h with h1 | h1
        · exact absurd (beq_iff_eq.mpr h1.symm) (by rw [hp']; exact Bool.false_ne_true)
        · exact h1
      exact lookupCell_append_of_mem c ps' qs h'

theorem getCell_append (cols : List String) (cells : List Cell) (c cn : String)
    (v : Cell) (h : cells.length = cols.length) (hc : c ∈ cols) :
    getCell (cols ++ [cn]) c (cells ++ [v]) = getCell cols c cells := by
  unfold getCell
  rw [List.zip_append h.symm]
  exact lookupCell_append_of_mem c _ _ (by
    rw [List.map_fst_zip cols cells (le_of_eq h.symm)]
    exact hc)

theorem dropColCells_cons_eq {x c : String} (xs : List String) (y : Cell)
    (ys : List Cell) (hx : (x == c) = true) :
    dropColCells (x :: xs) c (y :: ys) = dropColCells xs c ys := by
  show (if x == c then dropColCells xs c ys else y :: dropColCells xs c ys) = _
  rw [if_pos hx]

theorem dropColCells_cons_ne {x c : String} (xs : List String) (y : Cell)
    (ys : List Cell) (hx : (x == c) = false) :
    dropColCells (x :: xs) c (y :: ys) = y :: dropColCells xs c ys := by
  show (if x == c then dropColCells xs c ys else y :: dropColCells xs c ys) = _
  rw [if_neg (by rw [hx]; exact Bool.false_ne_true)]

theorem dropColCells_length (c : String) :
    ∀ (cols : List String) (cells : List Cell), cells.length = cols.length →
      (dropColCells cols c cells).length
        = (cols.filter (fun x => !(x == c))).length
  | [], [], _ => rfl
  | [], y :: ys, h => by simp at h
  | x :: xs, [], h => by simp at h
  | x :: xs, y :: ys, h => by
    have ih := dropColCells_length c xs ys (Nat.succ_injective h)
    rw [List.filter_cons]
    cases hx : x == c with
    | true =>
      rw [dropColCells_cons_eq xs y ys hx, if_neg (by decide)]
      exact ih
    | false =>
      rw [dropColCells_cons_ne xs y ys hx, if_pos (by decide), List.length_cons,
        List.length_cons]
      exact congrArg Nat.succ ih

theorem getCell_dropColCells (c tc : String) (hne : c ≠ tc) :
    ∀ (cols : List String) (cells : List Cell),
      getCell (cols.filter (fun x => !(x == tc))) c (dropColCells cols tc cells)
        = getCell cols c cells
  | [], [] => rfl
  | [], y :: ys => rfl
  | x :: xs, [] => by
    show getCell (List.filter _ (x :: xs)) c [] = getCell (x :: xs) c []
    unfold getCell
    rw [List.zip_nil_right, List.zip_nil_right]
  | x :: xs, y :: ys => by
    have ih := getCell_dropColCells c tc hne xs ys
    rw [List.filter_cons]
    cases hx : x == tc with
    | true =>
      rw [dropColCells_cons_eq xs y ys hx, if_neg (by decide)]
      have hxc : (x == c) = false := by
        rw [beq_eq_false_iff_ne]
        rw [beq_iff_eq] at hx
        exact fun hh => hne (hh ▸ hx)
      show _ = getCell (x :: xs) c (y :: ys)
      unfold getCell
      rw [List.zip_cons_cons, lookupCell_pair_cons,
        if_neg (by rw [hxc]; exact Bool.false_ne_true)]
      exact ih
    | false =>
      rw [dropColCells_cons_ne xs y ys hx, if_pos (by decide)]
      show getCell (x :: List.filter _ xs) c (y :: dropColCells xs tc ys)
        = getCell (x :: xs) c (y :: ys)
      unfold getCell
      rw [List.zip_cons_cons, List.zip_cons_cons, lookupCell_pair_cons,
        lookupCell_pair_cons]
      by_cases hxc : (x == c) = true
      · rw [if_pos hxc, if_pos hxc]
      · rw [if_neg hxc, if_neg hxc]
        exact ih

theorem getCell_rename (cols : List String) (cells : List Cell) (old c : String)
    (hfresh : c ∉ cols) :
    getCell (cols.map (fun x => if x = old then c else x)) c cells
      = getCell cols old cells := by
  induction cols generalizing cells with
  | nil => rfl
  | cons x xs ih =>
    cases cells with
    | nil =>
      unfold getCell
      rw [List.zip_nil_right, List.zip_nil_right]
      rfl
    | cons y ys =>
      have hx : x ≠ c := fun hh => hfresh (hh ▸ List.mem_cons_self x xs)
      have hfresh' : c ∉ xs := fun hh => hfresh (List.mem_cons_of_mem x hh)
      rw [List.map_cons]
      unfold getCell
      rw [List.zip_cons_cons, List.zip_cons_cons, lookupCell_pair_cons,
        lookupCell_pair_cons]
      by_cases hxo : x = old
      · rw [if_pos hxo]
        rw [if_pos (beq_self_eq_true c), if_pos (beq_iff_eq.mpr hxo)]
      · rw [if_neg hxo]
        rw [if_neg (by rw [beq_eq_false_iff_ne.mpr hx]; exact Bool.false_ne_true),
          if_neg (by rw [beq_eq_false_iff_ne.mpr hxo]; exact Bool.false_ne_true)]
        exact ih ys hfresh'

theorem dropColCells_append (tc qn : String) (hqn : (qn == tc) = false) :
    ∀ (cols : List String) (cells : List Cell), cells.length = cols.length →
      ∀ qv : Cell,
        dropColCells (cols ++ [qn]) tc (cells ++ [qv])
          = dropColCells cols tc cells ++ [qv]
  | [], [], _, qv => by
    show dropColCells [qn] tc [qv] = [qv]
    exact dropColCells_cons_ne [] qv [] hqn
  | [], y :: ys, h, _ => by simp at h
  | x :: xs, [], h, _ => by simp at h
  | x :: xs, y :: ys, h, qv => by
    have ih := dropColCells_append tc qn hqn xs ys (Nat.succ_injective h) qv
    rw [List.cons_append, List.cons_append]
    cases hx : x == tc with
    | true =>
      rw [dropColCells_cons_eq _ y _ hx, dropColCells_cons_eq xs y ys hx]
      exact ih
    | false =>
      rw [dropColCells_cons_ne _ y _ hx, dropColCells_cons_ne xs y ys hx,
        List.cons_append]
      exact congrArg (List.cons y) ih

theorem getCol_length (df : DataFrame) (c : String) :
    (getCol df c).length = df.rows.length := by
  rw [getCol, List.length_map]

theorem tdc_ok_length {scores : List Cell} {targets : List Bool} {desc : Bool}
    {qvals : List Cell} (h : tdc scores targets desc = .ok qvals) :
    qvals.length = scores.length := by
  unfold tdc at h
  split at h
  · cases h
  · split at h
    · cases h
    · split at h
      · cases h
      · rename_i hlen _ _
        rw [Except.ok.injEq] at h
        rw [← h, List.length_map, List.length_zip, not_ne_iff.mp hlen, Nat.min_self]

theorem assignCol_fresh (df : DataFrame) (c : String) (vals : List Cell)
    (hlen : df.rows.length = vals.length) (hc : c ∉ df.cols) :
    assignCol df c vals = .ok ⟨df.cols ++ [c], appendRows df.rows vals⟩ := by
  unfold assignCol
  rw [if_pos hlen, if_neg hc]

theorem assignCol_mismatch (df : DataFrame) (c : String) (vals : List Cell)
    (hlen : df.rows.length ≠ vals.length) :
    assignCol df c vals = .error "Length of values does not match length of index" := by
  unfold assignCol
  rw [if_neg hlen]

theorem getCol_appendRows (cols : List String) (cn c : String) (hc : c ∈ cols) :
    ∀ (rows : List RowT) (vals : List Cell), rows.length = vals.length →
      (∀ r ∈ rows, r.2.length = cols.length) →
      (appendRows rows vals).map (fun x => getCell (cols ++ [cn]) c x.2)
        = rows.map (fun r => getCell cols c r.2)
  | [], _, _, _ => rfl
  | r :: rs, [], h, _ => by simp at h
  | r :: rs, v :: vs, h, hwf => by
    rw [appendRows_cons, List.map_cons, List.map_cons]
    congr 1
    · exact getCell_append cols r.2 c cn v (hwf r (List.mem_cons_self r rs)) hc
    · exact getCol_appendRows cols cn c hc rs vs (Nat.succ_injective h)
        (fun s hs => hwf s (List.mem_cons_of_mem r hs))

theorem maskVals_zip_fst {α β : Type} :
    ∀ (xs : List α) (vs : List β) (mask : List Bool), xs.length = vs.length →
      (maskVals (xs.zip vs) mask).map Prod.fst = maskVals xs mask
  | [], [], _, _ => rfl
  | [], v :: vs, _, h => by simp at h
  | x :: xs, [], _, h => by simp at h
  | x :: xs, v :: vs, [], _ => by
    rw [maskVals_nil_right, maskVals_nil_right]
    rfl
  | x :: xs, v :: vs, true :: bs, h => by
    rw [List.zip_cons_cons, maskVals_cons_true, maskVals_cons_true, List.map_cons]
    exact congrArg (List.cons x) (maskVals_zip_fst xs vs bs (Nat.succ_injective h))
  | x :: xs, v :: vs, false :: bs, h => by
    rw [List.zip_cons_cons, maskVals_cons_false, maskVals_cons_false]
    exact maskVals_zip_fst xs vs bs (Nat.succ_injective h)

theorem dir_flip {a b : Cell} {desc : Bool}
    (h : (if !desc then Cell.le a b else Cell.le b a) = true) :
    (if desc then Cell.le b a else Cell.le a b) = true := by
  cases desc with
  | true => exact h
  | false => exact h

theorem dir_trans {a b c : Cell} {desc : Bool}
    (h1 : (if !desc then Cell.le a b else Cell.le b a) = true)
    (h2 : (if !desc then Cell.le b c else Cell.le c b) = true) :
    (if !desc then Cell.le a c else Cell.le c a) = true := by
  cases desc with
  | true => exact Cell.le_trans h2 h1
  | false => exact Cell.le_trans h1 h2

theorem dir_total (a b : Cell) (desc : Bool) :
    ((if !desc then Cell.le a b else Cell.le b a)
      || (if !desc then Cell.le b a else Cell.le a b)) = true := by
  cases desc with
  | true => exact Cell.le_total b a
  | false => exact Cell.le_total a b

theorem assign_level_eq (df : DataFrame) (scoreCol targetCol : String)
    (desc : Bool) (pepFn : List Cell → List Cell → List Cell) :
    assign_level df scoreCol targetCol desc pepFn
      = (tdc (getCol df scoreCol)
          ((getCol df targetCol).map (fun v => decide (v.num ≠ 0))) desc).bind
          (fun qvals => (assignCol df "mokapot q-value" qvals).bind
            (fun df1 => assign_level_post df1 scoreCol targetCol desc
              (getCol df scoreCol)
              ((getCol df targetCol).map (fun v => decide (v.num ≠ 0))) pepFn)) := rfl

/-- The per-level routine only succeeds through the q-value primitive and the
pandas column assignments; when it does, the table it stores has the shape C6
asserts. -/
theorem assign_level_ok_props (df : DataFrame) (scoreCol targetCol : String)
    (desc : Bool) (pepFn : List Cell → List Cell → List Cell) (table : DataFrame)
    (hwf : WF df) (hsc : scoreCol ∈ df.cols) (htc : targetCol ∈ df.cols)
    (hst : scoreCol ≠ targetCol)
    (hfq : "mokapot q-value" ∉ df.cols)
    (hfp : "mokapot PEP" ∉ df.cols)
    (hfm : "mokapot score" ∉ df.cols)
    (hpep : ∀ pos neg, (pepFn pos neg).length = pos.length)
    (h_ok : assign_level df scoreCol targetCol desc pepFn = .ok table) :
    tableProps scoreCol targetCol desc df table := by
  rw [assign_level_eq] at h_ok
  cases htdc : tdc (getCol df scoreCol)
      ((getCol df targetCol).map (fun v => decide (v.num ≠ 0))) desc with
  | error e =>
    rw [htdc] at h_ok
    have h' : (Except.error e : Except String DataFrame) = .ok table := h_ok
    cases h'
  | ok qvals =>
    rw [htdc] at h_ok
    have hrows_q : df.rows.length = qvals.length := by
      rw [tdc_ok_length htdc, getCol_length]
    rw [show ((Except.ok qvals).bind (fun qvals =>
        (assignCol df "mokapot q-value" qvals).bind
          (fun df1 => assign_level_post df1 scoreCol targetCol desc
            (getCol df scoreCol)
            ((getCol df targetCol).map (fun v => decide (v.num ≠ 0))) pepFn)))
        = ((assignCol df "mokapot q-value" qvals).bind
          (fun df1 => assign_level_post df1 scoreCol targetCol desc
            (getCol df scoreCol)
            ((getCol df targetCol).map (fun v => decide (v.num ≠ 0))) pepFn)) from rfl,
      assignCol_fresh df "mokapot q-value" qvals hrows_q hfq] at h_ok
    set S := getCol df scoreCol with hSdef
    set T := (getCol df targetCol).map (fun v => decide (v.num ≠ 0)) with hTdef
    set df1 : DataFrame :=
      ⟨df.cols ++ ["mokapot q-value"], appendRows df.rows qvals⟩ with hdf1
    set kept : DataFrame := filterRows df1 T with hkept
    set sorted : DataFrame := sortRowsBy kept scoreCol (!desc) with hsorted
    set reset : DataFrame := resetIndex sorted with hreset
    set dropped : DataFrame := dropCol reset targetCol with hdropped
    set renamed : DataFrame := renameCol dropped scoreCol "mokapot score" with hrenamed
    set pep : List Cell :=
      pepFn (maskVals S T) (maskVals S (T.map (fun b => !b))) with hpepdef
    replace h_ok : assignCol renamed "mokapot PEP" pep = .ok table := h_ok
    -- basic lengths and well-formedness along the chain
    have hSlen : S.length = df.rows.length := by
      rw [hSdef, getCol_length]
    have hTlen : T.length = df.rows.length := by
      rw [hTdef, List.length_map, getCol_length]
    have hdf1rows : df1.rows.length = df.rows.length :=
      appendRows_length df.rows qvals hrows_q
    have hwf1 : WF df1 := by
      intro x hx
      rcases appendRows_mem df.rows qvals x hx with ⟨r, hr, v, rfl⟩
      show (r.2 ++ [v]).length = (df.cols ++ ["mokapot q-value"]).length
      rw [List.length_append, List.length_append, hwf r hr]
      rfl
    have hkept_sub : ∀ r ∈ kept.rows, r ∈ df1.rows :=
      fun r hr => maskVals_sub df1.rows T r hr
    have hkwf : WF kept := fun r hr => hwf1 r (hkept_sub r hr)
    have hsortperm : sorted.rows.Perm kept.rows := sortStable_perm _ kept.rows
    have hswf : WF sorted := fun r hr => hkwf r (hsortperm.mem_iff.mp hr)
    have hreset_snd : reset.rows.map Prod.snd = sorted.rows.map Prod.snd :=
      List.enum_map_snd _
    have hrwf : WF reset := by
      intro r hr
      have hsnd : r.2 ∈ reset.rows.map Prod.snd := List.mem_map_of_mem Prod.snd hr
      rw [hreset_snd] at hsnd
      rcases List.mem_map.mp hsnd with ⟨s, hs, hsr⟩
      show r.2.length = sorted.cols.length
      rw [← hsr]
      exact hswf s hs
    have hreset_len : reset.rows.length = kept.rows.length := by
      show ((sorted.rows.map Prod.snd).enum).length = kept.rows.length
      rw [List.enum_length, List.length_map]
      exact hsortperm.length_eq
    have hpep_len : pep.length = kept.rows.length := by
      rw [hpepdef, hpep]
      show (maskVals S T).length = (maskVals df1.rows T).length
      exact maskVals_length_eq S df1.rows T (hSlen.trans hTlen.symm)
        (hdf1rows.trans hTlen.symm)
    have hdrop_rows : dropped.rows
        = reset.rows.map (fun r => (r.1, dropColCells df1.cols targetCol r.2)) := rfl
    have hren_len : renamed.rows.length = kept.rows.length := by
      show dropped.rows.length = kept.rows.length
      rw [hdrop_rows, List.length_map]
      exact hreset_len
    -- facts about the column lists
    have hqt : "mokapot q-value" ≠ targetCol := fun h => hfq (h ▸ htc)
    have hqs : "mokapot q-value" ≠ scoreCol := fun h => hfq (h ▸ hsc)
    have hmt : "mokapot score" ≠ targetCol := fun h => hfm (h ▸ htc)
    have hms : "mokapot score" ≠ scoreCol := fun h => hfm (h ▸ hsc)
    have hpt : "mokapot PEP" ≠ targetCol := fun h => hfp (h ▸ htc)
    have hps : "mokapot PEP" ≠ scoreCol := fun h => hfp (h ▸ hsc)
    have hdcols : dropped.cols
        = df1.cols.filter (fun x => !(x == targetCol)) := rfl
    have hdcols_sub : ∀ x ∈ dropped.cols, x ∈ df1.cols := by
      intro x hx
      rw [hdcols] at hx
      exact List.mem_of_mem_filter hx
    have hdf1_mem : ∀ x, x ∈ df1.cols → x ∈ df.cols ∨ x = "mokapot q-value" := by
      intro x hx
      rcases List.mem_append.mp hx with h | h
      · exact Or.inl h
      · exact Or.inr (List.mem_singleton.mp h)
    have hsc_d : scoreCol ∈ dropped.cols := by
      rw [hdcols]
      refine List.mem_filter.mpr ⟨List.mem_append_left _ hsc, ?_⟩
      rw [beq_eq_false_iff_ne.mpr hst]
      rfl
    have hq_d : "mokapot q-value" ∈ dropped.cols := by
      rw [hdcols]
      refine List.mem_filter.mpr
        ⟨List.mem_append_right _ (List.mem_singleton.mpr rfl), ?_⟩
      rw [beq_eq_false_iff_ne.mpr hqt]
      rfl
    have htc_nd : targetCol ∉ dropped.cols := by
      intro hx
      rw [hdcols] at hx
      have := List.of_mem_filter hx
      rw [beq_self_eq_true] at this
      cases this
    have hm_nd : "mokapot score" ∉ dropped.cols := by
      intro hx
      rcases hdf1_mem _ (hdcols_sub _ hx) with h | h
      · exact hfm h
      · exact absurd h (by decide)
    have hp_nd : "mokapot PEP" ∉ dropped.cols := by
      intro hx
      rcases hdf1_mem _ (hdcols_sub _ hx) with h | h
      · exact hfp h
      · exact absurd h (by decide)
    have hrcols : renamed.cols
        = dropped.cols.map (fun x => if x = scoreCol then "mokapot score" else x) := rfl
    have hms_r : "mokapot score" ∈ renamed.cols := by
      rw [hrcols]
      exact List.mem_map.mpr ⟨scoreCol, hsc_d, by rw [if_pos rfl]⟩
    have hq_r : "mokapot q-value" ∈ renamed.cols := by
      rw [hrcols]
      exact List.mem_map.mpr ⟨"mokapot q-value", hq_d, by rw [if_neg hqs]⟩
    have htc_nr : targetCol ∉ renamed.cols := by
      intro hx
      rw [hrcols] at hx
      rcases List.mem_map.mp hx with ⟨x, hxd, hfx⟩
      by_cases hxs : x = scoreCol
      · rw [if_pos hxs] at hfx
        exact hmt hfx
      · rw [if_neg hxs] at hfx
        exact htc_nd (hfx ▸ hxd)
    have hsc_nr : scoreCol ∉ renamed.cols := by
      intro hx
      rw [hrcols] at hx
      rcases List.mem_map.mp hx with ⟨x, hxd, hfx⟩
      by_cases hxs : x = scoreCol
      · rw [if_pos hxs] at hfx
        exact hms hfx
      · rw [if_neg hxs] at hfx
        exact hxs hfx
    have hp_nr : "mokapot PEP" ∉ renamed.cols := by
      intro hx
      rw [hrcols] at hx
      rcases List.mem_map.mp hx with ⟨x, hxd, hfx⟩
      by_cases hxs : x = scoreCol
      · rw [if_pos hxs] at hfx
        exact absurd hfx (by decide)
      · rw [if_neg hxs] at hfx
        exact hp_nd (hfx ▸ hxd)
    have hrenwf : WF renamed := by
      intro r hr
      have hr' : r ∈ dropped.rows := hr
      rw [hdrop_rows] at hr'
      rcases List.mem_map.mp hr' with ⟨s, hs, rfl⟩
      show (dropColCells df1.cols targetCol s.2).length = renamed.cols.length
      rw [hrcols, List.length_map, hdcols]
      exact dropColCells_length targetCol df1.cols s.2 (hrwf s hs)
    -- the final column assignment succeeds and fixes the table
    rw [assignCol_fresh renamed "mokapot PEP" pep (hren_len.trans hpep_len.symm) hp_nr,
      Except.ok.injEq] at h_ok
    subst h_ok
    have hlenrp : renamed.rows.length = pep.length := hren_len.trans hpep_len.symm
    constructor
    · -- target column gone
      intro hx
      rcases List.mem_append.mp hx with h | h
      · exact htc_nr h
      · exact hpt (List.mem_singleton.mp h).symm
    constructor
    · -- score column renamed away
      intro hx
      rcases List.mem_append.mp hx with h | h
      · exact hsc_nr h
      · exact hps (List.mem_singleton.mp h).symm
    constructor
    · exact List.mem_append_left _ hms_r
    constructor
    · exact List.mem_append_left _ hq_r
    constructor
    · exact List.mem_append_right _ (List.mem_singleton.mpr rfl)
    constructor
    · -- sorted by score in the requested direction
      show ((appendRows renamed.rows pep).map
          (fun x => getCell (renamed.cols ++ ["mokapot PEP"]) "mokapot score" x.2)).Pairwise
        (fun a b => (if desc then Cell.le b a else Cell.le a b) = true)
      rw [getCol_appendRows renamed.cols "mokapot PEP" "mokapot score" hms_r
        renamed.rows pep hlenrp hrenwf]
      have hstep2 : renamed.rows.map (fun r => getCell renamed.cols "mokapot score" r.2)
          = dropped.rows.map (fun r => getCell dropped.cols scoreCol r.2) := by
        refine List.map_congr_left (fun r _ => ?_)
        rw [hrcols]
        exact getCell_rename dropped.cols r.2 scoreCol "mokapot score" hm_nd
      rw [hstep2]
      have hstep3 : dropped.rows.map (fun r => getCell dropped.cols scoreCol r.2)
          = reset.rows.map (fun r => getCell df1.cols scoreCol r.2) := by
        rw [hdrop_rows, List.map_map]
        refine List.map_congr_left (fun r _ => ?_)
        show getCell dropped.cols scoreCol (dropColCells df1.cols targetCol r.2)
          = getCell df1.cols scoreCol r.2
        rw [hdcols]
        exact getCell_dropColCells scoreCol targetCol hst df1.cols r.2
      rw [hstep3]
      have hstep4 : reset.rows.map (fun r => getCell df1.cols scoreCol r.2)
          = sorted.rows.map (fun r => getCell df1.cols scoreCol r.2) := by
        have h1 : reset.rows.map (fun r => getCell df1.cols scoreCol r.2)
            = (reset.rows.map Prod.snd).map (fun cs => getCell df1.cols scoreCol cs) := by
          rw [List.map_map]
          rfl
        have h2 : sorted.rows.map (fun r => getCell df1.cols scoreCol r.2)
            = (sorted.rows.map Prod.snd).map (fun cs => getCell df1.cols scoreCol cs) := by
          rw [List.map_map]
          rfl
        rw [h1, h2, hreset_snd]
      rw [hstep4, List.pairwise_map]
      have hp0 := sortStable_pairwise
        (fun r s : RowT =>
          if !desc then Cell.le (getCell kept.cols scoreCol r.2) (getCell kept.cols scoreCol s.2)
          else Cell.le (getCell kept.cols scoreCol s.2) (getCell kept.cols scoreCol r.2))
        (fun _ _ _ h1 h2 => dir_trans h1 h2)
        (fun x y => dir_total (getCell kept.cols scoreCol x.2) (getCell kept.cols scoreCol y.2) desc)
        kept.rows
      exact hp0.imp (fun h => dir_flip h)
    constructor
    · -- index reset
      show (appendRows renamed.rows pep).map Prod.fst
        = List.range (appendRows renamed.rows pep).length
      rw [appendRows_map_fst renamed.rows pep hlenrp,
        appendRows_length renamed.rows pep hlenrp]
      have h1 : renamed.rows.map Prod.fst = reset.rows.map Prod.fst := by
        show dropped.rows.map Prod.fst = reset.rows.map Prod.fst
        rw [hdrop_rows, List.map_map]
        rfl
      have h2 : reset.rows.map Prod.fst
          = List.range (sorted.rows.map Prod.snd).length :=
        List.enum_map_fst _
      have h3 : renamed.rows.length = (sorted.rows.map Prod.snd).length := by
        show dropped.rows.length = _
        rw [hdrop_rows, List.length_map]
        show ((sorted.rows.map Prod.snd).enum).length = _
        rw [List.enum_length]
      rw [h1, h2, h3]
    · -- provenance: exactly the target rows of the input, annotations dropped
      show ((appendRows renamed.rows pep).map (fun r => r.2.dropLast.dropLast)).Perm
        ((filterRows df T).rows.map (fun r => dropColCells df.cols targetCol r.2))
      have e1 : (appendRows renamed.rows pep).map (fun r => r.2.dropLast.dropLast)
          = ((appendRows renamed.rows pep).map (fun x => x.2.dropLast)).map List.dropLast := by
        rw [List.map_map]
        rfl
      rw [e1, appendRows_map_dropLast renamed.rows pep hlenrp]
      have e2 : renamed.rows.map Prod.snd
          = reset.rows.map (fun r => dropColCells df1.cols targetCol r.2) := by
        show dropped.rows.map Prod.snd = _
        rw [hdrop_rows, List.map_map]
        rfl
      have e3 : reset.rows.map (fun r => dropColCells df1.cols targetCol r.2)
          = sorted.rows.map (fun r => dropColCells df1.cols targetCol r.2) := by
        have h1 : reset.rows.map (fun r => dropColCells df1.cols targetCol r.2)
            = (reset.rows.map Prod.snd).map (fun cs => dropColCells df1.cols targetCol cs) := by
          rw [List.map_map]
          rfl
        have h2 : sorted.rows.map (fun r => dropColCells df1.cols targetCol r.2)
            = (sorted.rows.map Prod.snd).map (fun cs => dropColCells df1.cols targetCol cs) := by
          rw [List.map_map]
          rfl
        rw [h1, h2, hreset_snd]
      rw [e2, e3, List.map_map]
      refine (hsortperm.map (List.dropLast ∘ fun r : RowT =>
        dropColCells df1.cols targetCol r.2)).trans ?_
      have e4 : kept.rows = (maskVals (df.rows.zip qvals) T).map
          (fun p => (p.1.1, p.1.2 ++ [p.2])) := by
        show maskVals df1.rows T = _
        show maskVals ((df.rows.zip qvals).map (fun p => (p.1.1, p.1.2 ++ [p.2]))) T = _
        rw [maskVals_map]
      rw [e4, List.map_map]
      have hqn_tc : ("mokapot q-value" == targetCol) = false :=
        beq_eq_false_iff_ne.mpr hqt
      have e5 : (maskVals (df.rows.zip qvals) T).map
          ((List.dropLast ∘ fun r : RowT => dropColCells df1.cols targetCol r.2)
            ∘ fun p : RowT × Cell => (p.1.1, p.1.2 ++ [p.2]))
          = (maskVals (df.rows.zip qvals) T).map
            (fun p => dropColCells df.cols targetCol p.1.2) := by
        refine List.map_congr_left (fun p hp => ?_)
        have hp1 : p.1 ∈ df.rows :=
          (List.of_mem_zip (maskVals_sub (df.rows.zip qvals) T p hp)).1
        show (dropColCells df1.cols targetCol (p.1.2 ++ [p.2])).dropLast
          = dropColCells df.cols targetCol p.1.2
        show (dropColCells (df.cols ++ ["mokapot q-value"]) targetCol
          (p.1.2 ++ [p.2])).dropLast = _
        rw [dropColCells_append targetCol "mokapot q-value" hqn_tc df.cols p.1.2
          (hwf p.1 hp1) p.2, List.dropLast_concat]
      rw [e5]
      have e6 : (maskVals (df.rows.zip qvals) T).map
          (fun p => dropColCells df.cols targetCol p.1.2)
          = ((maskVals (df.rows.zip qvals) T).map Prod.fst).map
            (fun r => dropColCells df.cols targetCol r.2) := by
        rw [List.map_map]
        rfl
      rw [e6, maskVals_zip_fst df.rows qvals T hrows_q]
      exact List.Perm.refl _

theorem locRows_mem (rows : List RowT) (idx : List Nat) :
    ∀ r ∈ locRows rows idx, r ∈ rows := by
  intro r hr
  rcases List.mem_filterMap.mp hr with ⟨i, _, hfind⟩
  exact List.mem_of_find?_eq_some hfind

theorem linear_assign_eq (df : DataFrame) (scoreCol targetCol : String)
    (peptideCols : List String) (pepShuffle : List RowT) (desc : Bool)
    (pepFn : List Cell → List Cell → List Cell) :
    linear_assign df scoreCol targetCol peptideCols pepShuffle desc pepFn
      = (assign_level df scoreCol targetCol desc pepFn).bind
          (fun t1 => (assign_level (peptidesOf df peptideCols scoreCol pepShuffle)
              scoreCol targetCol desc pepFn).bind
            (fun t2 => .ok [("psms", t1), ("peptides", t2)])) := rfl

/-- C6: on every successful LinearConfidence construction, the store holds
exactly the levels psms and peptides in that order, and each stored table has
the asserted shape (target rows only, target column dropped, score column
renamed to mokapot score, sorted by score in the requested direction, index
reset, q-value and PEP columns present) relative to its level input: the
collapsed working table for psms and its peptide-level collapse for
peptides. -/
theorem linear_result_tables_shape (df : DataFrame) (scoreCol targetCol : String)
    (peptideCols : List String) (pepShuffle : List RowT) (desc : Bool)
    (pepFn : List Cell → List Cell → List Cell)
    (store : List (String × DataFrame))
    (hwf : WF df) (hsc : scoreCol ∈ df.cols) (htc : targetCol ∈ df.cols)
    (hst : scoreCol ≠ targetCol)
    (hfq : "mokapot q-value" ∉ df.cols)
    (hfp : "mokapot PEP" ∉ df.cols)
    (hfm : "mokapot score" ∉ df.cols)
    (hpep : ∀ pos neg, (pepFn pos neg).length = pos.length)
    (h_ok : linear_assign df scoreCol targetCol peptideCols pepShuffle desc pepFn
      = .ok store) :
    store.map Prod.fst = ["psms", "peptides"]
    ∧ List.Forall₂ (tableProps scoreCol targetCol desc)
        [df, peptidesOf df peptideCols scoreCol pepShuffle] (store.map Prod.snd) := by
  rw [linear_assign_eq] at h_ok
  cases h1 : assign_level df scoreCol targetCol desc pepFn with
  | error e =>
    rw [h1] at h_ok
    have h' : (Except.error e : Except String (List (String × DataFrame))) = .ok store := h_ok
    cases h'
  | ok t1 =>
    rw [h1] at h_ok
    replace h_ok : (assign_level (peptidesOf df peptideCols scoreCol pepShuffle)
        scoreCol targetCol desc pepFn).bind
          (fun t2 => .ok [("psms", t1), ("peptides", t2)]) = .ok store := h_ok
    cases h2 : assign_level (peptidesOf df peptideCols scoreCol pepShuffle)
        scoreCol targetCol desc pepFn with
    | error e =>
      rw [h2] at h_ok
      have h' : (Except.error e : Except String (List (String × DataFrame))) = .ok store := h_ok
      cases h'
    | ok t2 =>
      rw [h2] at h_ok
      have h' : (Except.ok [("psms", t1), ("peptides", t2)]
          : Except String (List (String × DataFrame))) = .ok store := h_ok
      rw [Except.ok.injEq] at h'
      subst h'
      have hwfP : WF (peptidesOf df peptideCols scoreCol pepShuffle) := by
        intro r hr
        exact hwf r (locRows_mem df.rows _ r hr)
      refine ⟨rfl, List.Forall₂.cons ?_ (List.Forall₂.cons ?_ List.Forall₂.nil)⟩
      · exact assign_level_ok_props df scoreCol targetCol desc pepFn t1
          hwf hsc htc hst hfq hfp hfm hpep h1
      · exact assign_level_ok_props (peptidesOf df peptideCols scoreCol pepShuffle)
          scoreCol targetCol desc pepFn t2
          hwfP hsc htc hst hfq hfp hfm hpep h2

/-- Witness for C6 at the concrete table: construction succeeds and both
stored tables have the asserted shape. -/
theorem linear_result_tables_shape_witness :
    linear_assign linDemo "s" "t" ["pep"] linDemo.rows true linDemoPep
        = .ok ((linear_assign linDemo "s" "t" ["pep"] linDemo.rows true
            linDemoPep).toOption.getD [])
    ∧ ((linear_assign linDemo "s" "t" ["pep"] linDemo.rows true
          linDemoPep).toOption.getD []).map Prod.fst = ["psms", "peptides"]
    ∧ List.Forall₂ (tableProps "s" "t" true)
        [linDemo, peptidesOf linDemo ["pep"] "s" linDemo.rows]
        (((linear_assign linDemo "s" "t" ["pep"] linDemo.rows true
            linDemoPep).toOption.getD []).map Prod.snd) := by
  refine ⟨rfl, ?_⟩
  exact linear_result_tables_shape linDemo "s" "t" ["pep"] linDemo.rows true
    linDemoPep _ (by unfold WF; decide) (by decide) (by decide) (by decide)
    (by decide) (by decide) (by decide) (fun pos _ => List.length_map pos _) (by rfl)

/-- C5: requesting a level never computed for a Confidence instance surfaces
as an attribute-style lookup error (KeyError turned into AttributeError),
never as an empty or default result. -/
theorem getattr_missing_level_errors {α : Type} (store : List (String × α))
    (attr : String) (h : attr ∉ store.map Prod.fst) :
    confidence_getattr store attr = .error "AttributeError" := by
  cases hf : store.find? (fun p => p.1 == attr) with
  | none =>
    unfold confidence_getattr
    rw [hf]
  | some p =>
    have hp : p ∈ store := List.mem_of_find?_eq_some hf
    have heq := List.find?_some hf
    exact absurd (List.mem_map.mpr ⟨p, hp, beq_iff_eq.mp heq⟩) h

/-- Witness for C5: a CrossLinkedConfidence store populates only csms and
peptide_pairs; requesting peptides raises. -/
theorem getattr_missing_level_errors_witness :
    "peptides" ∉ ([("csms", (0 : Nat)), ("peptide_pairs", 1)] : List (String × Nat)).map Prod.fst
    ∧ confidence_getattr ([("csms", (0 : Nat)), ("peptide_pairs", 1)] : List (String × Nat))
        "peptides" = .error "AttributeError" :=
  ⟨by decide, getattr_missing_level_errors _ "peptides" (by decide)⟩

/-- C7: the label vector CrossLinkedConfidence hands to the cross-link
q-value primitive, crosslink_targets (the ternary label column under
astype(bool), line 300), classifies a row as target exactly when its ternary
label is non-zero: label 0 is decoy and labels 1 and 2 both count as accepted
observations being ranked. -/
theorem crosslink_qvalue_label_nonzero (df : DataFrame) (targetCol : String) :
    List.Forall₂ (fun t v => t = true ↔ v.num ≠ 0)
      (crosslink_targets df targetCol) (getCol df targetCol) := by
  unfold crosslink_targets
  induction getCol df targetCol with
  | nil => exact List.Forall₂.nil
  | cons a l ih => exact List.Forall₂.cons decide_eq_true_iff ih

/-- C2 (code-bug evidence): on xlTable, the positive sample handed to the PEP
primitive by lines 310 and 311 is empty rather than the label-2 scores,
because the ternary labels are cast to booleans before the comparison with 2
and a boolean never equals 2; the negative sample does hold exactly the
label-0 scores. -/
theorem crosslink_pep_positive_sample_empty :
    crosslink_pep_pos (getCol xlTable "s") (crosslink_targets xlTable "t") = []
    ∧ crosslink_pep_neg (getCol xlTable "s") (crosslink_targets xlTable "t")
        = [Cell.ofInt 10]
    ∧ ([Cell.ofInt 30] : List Cell) ≠ [] := by decide

/-- C4 (code-bug evidence): on xlTable, with external primitives meeting
their contracts (the cross-link q-value primitive answers one value per
observation, the PEP primitive one value per positive-sample score),
CrossLinkedConfidence construction fails: the PEP vector is empty while the
retained level table still holds the label-1 and label-2 rows, so the pandas
column assignment of the PEP vector raises a length mismatch instead of
returning result tables. -/
theorem crosslink_mixed_label_construction_fails :
    crosslink_assign xlTable "s" "t" ["s"] xlTable.rows true
        (fun s _ _ => .ok (s.map (fun _ => Cell.ofInt 0)))
        (fun pos _ => pos.map (fun _ => Cell.ofInt 0))
      = .error "Length of values does not match length of index" := by rfl

/-- When every surviving row of a table carries a non-zero target label, the
spec-modelled q-value primitive signals the zero-decoy degeneracy and the
per-level computation propagates it. -/
theorem assign_level_no_decoys (df : DataFrame) (scoreCol targetCol : String)
    (desc : Bool) (pepFn : List Cell → List Cell → List Cell)
    (h : ∀ r ∈ df.rows, (getCell df.cols targetCol r.2).num ≠ 0) :
    assign_level df scoreCol targetCol desc pepFn
      = .error "no decoy scores were provided" := by
  have hlen : ¬ (getCol df scoreCol).length
      ≠ ((getCol df targetCol).map (fun v => decide (v.num ≠ 0))).length := by
    intro hne
    exact hne (by simp [getCol])
  have hall : ((getCol df targetCol).map (fun v => decide (v.num ≠ 0))).all
      (fun t => t) = true := by
    rw [List.all_eq_true]
    intro t ht
    rcases List.mem_map.mp ht with ⟨v, hv, rfl⟩
    rcases List.mem_map.mp hv with ⟨r, hr, rfl⟩
    exact decide_eq_true (h r hr)
  have htdc : tdc (getCol df scoreCol)
      ((getCol df targetCol).map (fun v => decide (v.num ≠ 0))) desc
      = .error "no decoy scores were provided" := by
    rw [tdc, if_neg hlen, if_pos hall]
  simp only [assign_level]
  rw [htdc]
  rfl

/-- C3: for every LinearConfidence input whose surviving rows at one of the
two levels contain zero decoys (every target label non-zero there), the
q-value computation fails and construction surfaces the error to the caller:
no result-table store is returned. -/
theorem linear_no_decoys_surfaces_error (df : DataFrame)
    (scoreCol targetCol : String) (peptideCols : List String)
    (pepShuffle : List RowT) (desc : Bool)
    (pepFn : List Cell → List Cell → List Cell)
    (h : (∀ r ∈ df.rows, (getCell df.cols targetCol r.2).num ≠ 0)
      ∨ ∀ r ∈ (peptidesOf df peptideCols scoreCol pepShuffle).rows,
          (getCell df.cols targetCol r.2).num ≠ 0) :
    (linear_assign df scoreCol targetCol peptideCols pepShuffle desc pepFn).toOption
      = none := by
  rcases h with h | h
  · simp only [linear_assign]
    rw [assign_level_no_decoys df scoreCol targetCol desc pepFn h]
    rfl
  · cases hps : assign_level df scoreCol targetCol desc pepFn with
    | error e =>
      simp only [linear_assign]
      rw [hps]
      rfl
    | ok t =>
      simp only [linear_assign]
      rw [hps, assign_level_no_decoys (peptidesOf df peptideCols scoreCol pepShuffle)
        scoreCol targetCol desc pepFn h]
      rfl

/-- Witness for C3: a two-row all-target table; construction yields no store. -/
theorem linear_no_decoys_surfaces_error_witness :
    (∀ r ∈ (DataFrame.mk ["s", "t"]
        [(0, [Cell.ofInt 5, Cell.ofInt 1]), (1, [Cell.ofInt 3, Cell.ofInt 1])]).rows,
      (getCell ["s", "t"] "t" r.2).num ≠ 0)
    ∧ (linear_assign
        (DataFrame.mk ["s", "t"]
          [(0, [Cell.ofInt 5, Cell.ofInt 1]), (1, [Cell.ofInt 3, Cell.ofInt 1])])
        "s" "t" ["s"]
        [(0, [Cell.ofInt 5, Cell.ofInt 1]), (1, [Cell.ofInt 3, Cell.ofInt 1])] true
        (fun pos _ => pos)).toOption = none :=
  ⟨by decide,
    linear_no_decoys_surfaces_error _ "s" "t" ["s"] _ true _ (Or.inl (by decide))⟩

/-- Literal-merging helper for path concatenation. -/
theorem mokapot_dot_append (x : String) :
    "mokapot" ++ ("." ++ x) = "mokapot." ++ x := by
  rw [← String.append_assoc]
  rfl

/-- C10: to_txt returns one path per computed level, in store order, each
built as the optional destination prefix, then the optional file-root prefix,
then mokapot.<level>.txt.  The hypothesis rules out the degenerate directory
spellings (empty, or already slash-terminated) for which os.path.join inserts
no separator of its own. -/
theorem to_txt_builds_paths {α : Type} (store : List (String × α))
    (dest_dir file_root : Option String)
    (hd : ∀ d, dest_dir = some d →
      d ≠ "" ∧ (d.data.getLast? == some '/') = false) :
    to_txt store dest_dir file_root
      = store.map (fun p => claimed_txt_path dest_dir file_root p.1) := by
  unfold to_txt
  refine List.map_congr_left (fun p _ => ?_)
  cases dest_dir with
  | none =>
    cases file_root with
    | none => simp only [claimed_txt_path, String.append_assoc, mokapot_dot_append]
    | some r => simp only [claimed_txt_path, String.append_assoc, mokapot_dot_append]
  | some d =>
    have hd' := hd d rfl
    have h1 : ¬ d = "" := hd'.1
    have h2 : ¬ (d.data.getLast? == some '/') = true := by
      rw [hd'.2]
      exact Bool.false_ne_true
    cases file_root with
    | none =>
      simp only [claimed_txt_path, path_join, if_neg h1, if_neg h2,
        String.append_assoc, mokapot_dot_append]
    | some r =>
      simp only [claimed_txt_path, path_join, if_neg h1, if_neg h2,
        String.append_assoc, mokapot_dot_append]

/-- Witness for C10 at a concrete store with both levels, a destination
directory and a file root. -/
theorem to_txt_builds_paths_witness :
    (∀ d, (some "out" : Option String) = some d →
      d ≠ "" ∧ (d.data.getLast? == some '/') = false)
    ∧ to_txt ([("psms", (0 : Nat)), ("peptides", 1)] : List (String × Nat))
        (some "out") (some "run")
      = ([("psms", (0 : Nat)), ("peptides", 1)] : List (String × Nat)).map
          (fun p => claimed_txt_path (some "out") (some "run") p.1) :=
  ⟨fun d hdq => by cases hdq; exact ⟨by decide, by decide⟩,
    to_txt_builds_paths _ (some "out") (some "run")
      (fun d hdq => by cases hdq; exact ⟨by decide, by decide⟩)⟩

end Mokapot
